import Mathlib

/-!
Verification development for the authentication core of the relate-smtp
desktop client (`src/desktop/src-tauri/src/commands/{oidc,auth}.rs`).

Strings are modelled as `List Char` (Unicode scalar values), and the byte
iteration that the Rust code performs on `&str` values (`s.bytes()`) is
modelled by an explicit UTF-8 encoder `utf8Bytes`.  Network and OS effects
(HTTP fetches, the keyring, the TCP listener) are modelled as explicit
oracle arguments / finite-map state threaded through the functions.
-/

namespace RelateSmtp

instance {ε α : Type} [DecidableEq ε] [DecidableEq α] : DecidableEq (Except ε α) := fun x y =>
  match x, y with
  | .error e, .error f =>
    if h : e = f then isTrue (congrArg Except.error h)
    else isFalse (fun c => h (Except.error.inj c))
  | .ok a, .ok b =>
    if h : a = b then isTrue (congrArg Except.ok h)
    else isFalse (fun c => h (Except.ok.inj c))
  | .error _, .ok _ => isFalse Except.noConfusion
  | .ok _, .error _ => isFalse Except.noConfusion

/-! ## URL codec (`oidc.rs`, `urlencoding_encode` / `urlencoding_decode`) -/

/-- UTF-8 encoding of a single Unicode scalar value, as a list of bytes.
Models what `str::bytes()` yields in Rust for each `char`. -/
def utf8Char (c : Char) : List Nat :=
  let n := c.toNat
  if n < 128 then [n]
  else if n < 2048 then
    [192 + n / 64, 128 + n % 64]
  else if n < 65536 then
    [224 + n / 4096, 128 + (n / 64) % 64, 128 + n % 64]
  else
    [240 + n / 262144, 128 + (n / 4096) % 64, 128 + (n / 64) % 64, 128 + n % 64]

/-- The UTF-8 byte sequence of a string, modelling Rust's `s.bytes()`. -/
def utf8Bytes (s : List Char) : List Nat :=
  s.flatMap utf8Char

/-- The set of bytes that `urlencoding_encode` passes through unescaped:
`A-Z`, `a-z`, `0-9`, `-`, `_`, `.`, `~` (match arm in `oidc.rs:145`). -/
def isUnreservedByte (b : Nat) : Bool :=
  (65 ≤ b && b ≤ 90) || (97 ≤ b && b ≤ 122) || (48 ≤ b && b ≤ 57) ||
    b == 45 || b == 95 || b == 46 || b == 126

/-- Code point of the uppercase hex digit for `n < 16`, as produced by
Rust's `format!` with the uppercase-hex specifier. -/
def hexUpperDigit (n : Nat) : Nat :=
  if n < 10 then 48 + n else 55 + n

/-- Encoding of one input byte: pass through unreserved bytes, otherwise
emit a percent sign followed by two uppercase hex digits. -/
def encByte (b : Nat) : List Char :=
  if isUnreservedByte b then [Char.ofNat b]
  else ['%', Char.ofNat (hexUpperDigit (b / 16)), Char.ofNat (hexUpperDigit (b % 16))]

/-- `urlencoding_encode` from `oidc.rs`: iterates over the UTF-8 bytes of
the input and percent-encodes every byte that is not unreserved. -/
def urlencoding_encode (s : List Char) : List Char :=
  (utf8Bytes s).flatMap encByte

/-- Value of a single hexadecimal digit character, accepting `0-9`, `A-F`
and `a-f` as `u8::from_str_radix(_, 16)` does. -/
def hexVal (c : Char) : Option Nat :=
  let n := c.toNat
  if 48 ≤ n && n ≤ 57 then some (n - 48)
  else if 65 ≤ n && n ≤ 70 then some (n - 55)
  else if 97 ≤ n && n ≤ 102 then some (n - 87)
  else none

/-- Models `u8::from_str_radix(hex, 16)` on the two-character string built
from `hi`/`lo`: an optional leading plus sign is accepted, otherwise both
characters must be hex digits; a two-hex-digit value never overflows `u8`. -/
def fromStrRadix16u8 (c1 c2 : Char) : Option Nat :=
  if c1 = '+' then hexVal c2
  else
    match hexVal c1, hexVal c2 with
    | some h, some l => some (16 * h + l)
    | _, _ => none

/-- The characters contributed by one `%`-escape: the decoded byte as a
(Latin-1) `char` when the two hex characters parse, nothing otherwise
(`oidc.rs:129-131` pushes `byte as char` only on parse success). -/
def pctChunk (hi lo : Nat) : List Char :=
  match fromStrRadix16u8 (Char.ofNat hi) (Char.ofNat lo) with
  | some v => [Char.ofNat v]
  | none => []

/-- Core loop of `urlencoding_decode`, over the UTF-8 bytes of the input:
a `%` consumes up to two following bytes (missing ones default to `'0'`,
byte 48); `+` decodes to a space; any other byte is pushed as a `char`
with that byte's code point (`b as char`). -/
def decodeBytes : List Nat → List Char
  | [] => []
  | b :: rest =>
    if b == 37 then
      match rest with
      | [] => pctChunk 48 48
      | [hi] => pctChunk hi 48
      | hi :: lo :: t => pctChunk hi lo ++ decodeBytes t
    else if b == 43 then ' ' :: decodeBytes rest
    else Char.ofNat b :: decodeBytes rest

/-- `urlencoding_decode` from `oidc.rs`: iterates over the UTF-8 bytes of
the input string, resolving `%XX` escapes and `+` as space. -/
def urlencoding_decode (s : List Char) : List Char :=
  decodeBytes (utf8Bytes s)

/-! ## Query-string parsing (`oidc.rs`, `parse_query_params`) -/

/-- Models Rust's `str::split(sep)`: splitting the empty string yields one
empty piece, and adjacent separators yield empty pieces. -/
def splitSep (sep : Char) : List Char → List (List Char)
  | [] => [[]]
  | c :: t =>
    if c = sep then [] :: splitSep sep t
    else
      match splitSep sep t with
      | [] => [[c]]
      | h :: r => (c :: h) :: r

/-- Models `s.splitn(2, sep).nth(1)`: `none` when the separator is absent,
otherwise everything after its first occurrence. -/
def splitnTwoRest (sep : Char) (l : List Char) : Option (List Char) :=
  match l.dropWhile (fun c => c ≠ sep) with
  | [] => none
  | _ :: t => some t

/-- One `key=value` pair of `parse_query_params`: the key is everything
before the first `=` (the whole piece if there is none), the value is
everything after it (empty if there is none); both are percent-decoded. -/
def parsePair (pair : List Char) : List Char × List Char :=
  (urlencoding_decode (pair.takeWhile (fun c => c ≠ '=')),
   urlencoding_decode ((splitnTwoRest '=' pair).getD []))

/-- The decoded `(key, value)` pairs of a query string, in order. -/
def queryPairs (query : List Char) : List (List Char × List Char) :=
  (splitSep '&' query).map parsePair

/-- Insertion into the `HashMap` model: a later binding for the same key
overwrites an earlier one, as `HashMap::from_iter` does. -/
def mapInsert (m : List Char → Option (List Char)) (kv : List Char × List Char) :
    List Char → Option (List Char) :=
  fun k => if k = kv.1 then some kv.2 else m k

/-- `parse_query_params` from `oidc.rs`: split on `&`, split each piece at
the first `=`, percent-decode both sides, and collect into a map in which
the last occurrence of a key wins. -/
def parse_query_params (query : List Char) : List Char → Option (List Char) :=
  (queryPairs query).foldl mapInsert (fun _ => none)

/-- Reference lookup: the value of the last pair whose key equals `k`. -/
def lastLookup (l : List (List Char × List Char)) (k : List Char) : Option (List Char) :=
  ((l.filter (fun p => p.1 = k)).getLast?).map Prod.snd

/-! ## Callback listener (`oidc.rs`, `wait_for_callback`) -/

/-- Models Rust's `str::lines().next()` composed with the later parsing:
the first line of the request, with a trailing carriage return removed. -/
def firstLine (request : List Char) : List Char :=
  let l := request.takeWhile (fun c => c ≠ '\n')
  if l.getLast? = some '\r' then l.dropLast else l

/-- Models `str::split_whitespace`: split on whitespace and drop the empty
pieces produced by runs of whitespace. -/
def splitWhitespace (l : List Char) : List (List Char) :=
  (splitSep ' ' l).filter (fun p => p ≠ [])

/-- The request-line path: the second whitespace-separated token of the
first line (`first_line.split_whitespace().nth(1).unwrap_or("")`). -/
def requestPath (request : List Char) : List Char :=
  ((splitWhitespace (firstLine request)).getD 1 [])

/-- The query string of the request: everything after the first `?` of the
path (`path.splitn(2, '?').nth(1).unwrap_or("")`). -/
def requestQuery (request : List Char) : List Char :=
  (splitnTwoRest '?' (requestPath request)).getD []

/-- Static success page returned on a callback that carries a `code`. -/
def successBody : String :=
  "<html><body><h1>Authentication successful!</h1><p>You can close this window and return to Relate Mail.</p><script>window.close()</script></body></html>"

/-- Static failure page returned on a callback without a `code`. -/
def failureBody : String :=
  "<html><body><h1>Authentication failed</h1><p>Please try again in the application.</p></body></html>"

/-- `wait_for_callback` from `oidc.rs`, after the socket read: parses the
request line, extracts `code`/`state`/`error`, picks the HTTP reply
(status line and body), and produces the result of the function. -/
def wait_for_callback (request : List Char) :
    (String × String) × Except (List Char) (List Char × List Char) :=
  let params := parse_query_params (requestQuery request)
  let code := params ("code".toList)
  let state := (params ("state".toList)).getD []
  let err := params ("error".toList)
  let reply :=
    if code.isSome then ("HTTP/1.1 200 OK", successBody)
    else ("HTTP/1.1 400 Bad Request", failureBody)
  let result : Except (List Char) (List Char × List Char) :=
    match code, err with
    | some c, _ => .ok (c, state)
    | none, some e => .error (("OIDC error: ".toList) ++ e)
    | none, none => .error ("No authorization code received".toList)
  (reply, result)

/-! ## OIDC error taxonomy and discovery (`oidc.rs`) -/

/-- The `OidcError` enum of `oidc.rs`. -/
inductive OidcError where
  | DiscoveryFailed (msg : String)
  | AuthFailed (msg : String)
  | TokenExchangeFailed (msg : String)
  | RequestFailed (msg : String)
  | Timeout
deriving DecidableEq

/-- A minimal JSON value (`serde_json::Value`). -/
inductive Json where
  | null
  | bool (b : Bool)
  | num (n : Int)
  | str (s : String)
  | arr (elems : List Json)
  | obj (fields : List (String × Json))

/-- `serde_json::Value::get(key)`: field lookup, `none` on non-objects. -/
def Json.get : Json → String → Option Json
  | .obj fields, key => ((fields.find? (fun f => f.1 == key)).map Prod.snd)
  | _, _ => none

/-- `serde_json::Value::as_str()`: `some` only for JSON strings. -/
def Json.asStr : Json → Option String
  | .str s => some s
  | _ => none

/-- `reqwest::StatusCode::is_success()`: the 2xx range. -/
def isSuccessStatus (s : Nat) : Bool :=
  200 ≤ s && s < 300

/-- The `OidcConfig` struct of `oidc.rs`. -/
structure OidcConfig where
  authority : String
  client_id : String
  scopes : Option String
deriving DecidableEq

/-- The `ServerDiscovery` struct of `oidc.rs`. -/
structure ServerDiscovery where
  discovery : Json
  oidc_config : Option OidcConfig

/-- Outcome of one HTTP GET, as `discover_server` observes it: either a
transport error (`reqwest` error message), or a status code together with
the result of parsing the body as JSON (`resp.json()`). -/
def FetchOutcome : Type := Except String (Nat × Except String Json)

/-- Extraction of one optional OIDC setting from the parsed config
document: the camelCase key, falling back to the snake_case key, then
`as_str` (`oidc.rs:190-204`). -/
def configLookup (config : Json) (camel snake : String) : Option String :=
  ((config.get camel).orElse (fun _ => config.get snake)).bind Json.asStr

/-- `discover_server` from `oidc.rs`, with the two HTTP fetches supplied
as oracles: the `/api/discovery` fetch is required (transport error,
non-2xx status, and JSON parse failure are all `DiscoveryFailed`), while
the `/config/config.json` fetch is optional — except that a 2xx config
response whose body fails to parse as JSON is propagated as a
`DiscoveryFailed` error by the `?` inside the success arm. -/
def discover_server (discoveryFetch configFetch : FetchOutcome) :
    Except OidcError ServerDiscovery :=
  match discoveryFetch with
  | .error e => .error (.DiscoveryFailed ("Failed to reach server: " ++ e))
  | .ok (status, bodyJson) =>
    if !isSuccessStatus status then
      .error (.DiscoveryFailed ("Server returned HTTP " ++ toString status))
    else
      match bodyJson with
      | .error e => .error (.DiscoveryFailed ("Invalid discovery response: " ++ e))
      | .ok discovery =>
        match configFetch with
        | .ok (cstatus, cbody) =>
          if isSuccessStatus cstatus then
            match cbody with
            | .error e => .error (.DiscoveryFailed ("Invalid config response: " ++ e))
            | .ok config =>
              let authority := configLookup config ("oidcAuthority") "oidc_authority"
              let client_id := configLookup config ("oidcClientId") "oidc_client_id"
              let scopes := configLookup config ("oidcScopes") "oidc_scopes"
              match authority, client_id with
              | some a, some c =>
                if a ≠ "" then .ok ⟨discovery, some ⟨a, c, scopes⟩⟩
                else .ok ⟨discovery, none⟩
              | _, _ => .ok ⟨discovery, none⟩
          else .ok ⟨discovery, none⟩
        | .error _ => .ok ⟨discovery, none⟩

/-! ## Authorization flow (`oidc.rs`, `start_oidc_auth`) -/

/-- The `OpenIdConfiguration` struct of `oidc.rs`. -/
structure OpenIdConfiguration where
  authorization_endpoint : String
  token_endpoint : String
deriving DecidableEq

/-- The `TokenResponse` struct of `oidc.rs`. -/
structure TokenResponse where
  access_token : String
  id_token : Option String
  refresh_token : Option String
  expires_in : Option Nat
  token_type : Option String
deriving DecidableEq

/-- The effectful environment of one `start_oidc_auth` invocation, each
field the observable outcome of one side effect, in flow order:
the combined fetch-and-parse of the OpenID configuration, the port bind,
the browser launch, the callback wait (`none` models the 300 s timeout
elapsing, `some (.ok (code, state))` a parsed callback), and the token
endpoint POST (status code, body text, and body JSON parse). -/
structure FlowEnv where
  openidConfig : Except OidcError OpenIdConfiguration
  bindOutcome : Except String Unit
  browserOutcome : Except String Unit
  callback : Option (Except (List Char) (List Char × List Char))
  tokenPost : Except String (Nat × String × Except String TokenResponse)

/-- `start_oidc_auth` from `oidc.rs` with the PKCE values passed in
(`code_verifier`, `code_challenge`, `state` are freshly random in the
source) and effects read from `env`.  The second component records
whether the token-endpoint POST was reached. -/
def start_oidc_auth (env : FlowEnv) (state : List Char) :
    (Except OidcError TokenResponse) × Bool :=
  match env.openidConfig with
  | .error e => (.error e, false)
  | .ok _ =>
    match env.bindOutcome with
    | .error e => (.error (.AuthFailed ("Port 23847 unavailable. " ++ e)), false)
    | .ok _ =>
      match env.browserOutcome with
      | .error e => (.error (.AuthFailed ("Failed to open browser: " ++ e)), false)
      | .ok _ =>
        match env.callback with
        | none => (.error .Timeout, false)
        | some (.error e) => (.error (.AuthFailed (String.mk e)), false)
        | some (.ok (_, received_state)) =>
          if received_state ≠ state then
            (.error (.AuthFailed ("State mismatch")), false)
          else
            match env.tokenPost with
            | .error e => (.error (.TokenExchangeFailed ("Token request failed: " ++ e)), true)
            | .ok (status, body, parsed) =>
              if !isSuccessStatus status then
                (.error (.TokenExchangeFailed
                  ("Token endpoint returned HTTP " ++ toString status ++ ": " ++ body)), true)
              else
                match parsed with
                | .error e => (.error (.TokenExchangeFailed ("Invalid token response: " ++ e)), true)
                | .ok tokens => (.ok tokens, true)

/-! ## Credential Vault (`auth.rs`) -/

/-- The `AuthError` enum of `auth.rs`. -/
inductive AuthError where
  | KeyringError (msg : String)
  | SerializationError (msg : String)
  | AccountNotFound (id : String)
  | Internal (msg : String)
deriving DecidableEq

/-- The `Account` struct of `auth.rs`. -/
structure Account where
  id : String
  display_name : String
  server_url : String
  user_email : String
  api_key_id : String
  scopes : List String
  created_at : String
  last_used_at : String
deriving DecidableEq, Inhabited

/-- The `AccountsData` struct of `auth.rs`. -/
structure AccountsData where
  accounts : List Account
  active_account_id : Option String
deriving DecidableEq, Inhabited

/-- The shared in-memory credential view (`AppState.server_url` and
`AppState.api_key` in `commands/mod.rs`). -/
structure AppView where
  server_url : Option String
  api_key : Option String
deriving DecidableEq, Inhabited

/-- The per-account secret entries of the secure store, keyed by account
id (the keyring entries named `api_key_{id}`); `none` models
`keyring::Error::NoEntry`. -/
def SecretStore : Type := String → Option String

/-- `Entry::set_password` on a per-account secret entry. -/
def storeSet (s : SecretStore) (k v : String) : SecretStore :=
  fun k2 => if k2 = k then some v else s k2

/-- `Entry::delete_credential` on a per-account secret entry. -/
def storeErase (s : SecretStore) (k : String) : SecretStore :=
  fun k2 => if k2 = k then none else s k2

/-- Observable write events of one vault operation, in program order.
`durableWrite` is a `save_accounts_data` call; the two view events are the
writes under `state.server_url.write()` / `state.api_key.write()`. -/
inductive VaultEvent where
  | durableWrite (d : AccountsData)
  | viewServerUrlWrite (v : Option String)
  | viewApiKeyWrite (v : Option String)
  | secretWrite (id key : String)
  | secretDelete (id : String)
deriving DecidableEq

/-- Result of one vault command: its return value, the durable
`AccountsData` as persisted (or as left), the secret store, the shared
view, and the ordered event trace. -/
structure VaultResult (α : Type) where
  ret : Except AuthError α
  data : AccountsData
  store : SecretStore
  view : AppView
  events : List VaultEvent

/-- `load_accounts` from `auth.rs`: auto-select the first account if none
is active (persisting that choice), then, if the active account is found
and its secret is retrievable, publish url and secret to the shared view;
when the secret is missing the view is left as it was. -/
def load_accounts (data : AccountsData) (store : SecretStore) (view : AppView) :
    VaultResult AccountsData :=
  let step1 : AccountsData × List VaultEvent :=
    match data.active_account_id, data.accounts with
    | none, a :: _ =>
      let d : AccountsData := { data with active_account_id := some a.id }
      (d, [.durableWrite d])
    | _, _ => (data, [])
  let data1 := step1.1
  let evs1 := step1.2
  match data1.active_account_id with
  | some activeId =>
    match data1.accounts.find? (fun a => a.id == activeId) with
    | some account =>
      match store account.id with
      | some apiKey =>
        { ret := .ok data1, data := data1, store := store,
          view := ⟨some account.server_url, some apiKey⟩,
          events := evs1 ++ [.viewServerUrlWrite (some account.server_url),
                             .viewApiKeyWrite (some apiKey)] }
      | none => { ret := .ok data1, data := data1, store := store, view := view, events := evs1 }
    | none => { ret := .ok data1, data := data1, store := store, view := view, events := evs1 }
  | none => { ret := .ok data1, data := data1, store := store, view := view, events := evs1 }

/-- The upsert step of `save_account`: replace the first account whose
`(server_url, user_email)` matches, keeping its original `id`, and report
that id; report `none` (list unchanged) when no account matches.  This is
the recursive rendering of the `position` / index-assignment pair in
`auth.rs:159-169`. -/
def upsertAccount (account : Account) : List Account → Option String × List Account
  | [] => (none, [])
  | a :: t =>
    if a.server_url == account.server_url && a.user_email == account.user_email then
      (some a.id, { account with id := a.id } :: t)
    else
      let r := upsertAccount account t
      (r.1, a :: r.2)

/-- `save_account` from `auth.rs`: upsert by `(server_url, user_email)`,
store the secret under the resolved id, mark that id active, persist, and
publish the active account's url and the given key to the shared view. -/
def save_account (account : Account) (api_key : String)
    (data : AccountsData) (store : SecretStore) (view : AppView) :
    VaultResult AccountsData :=
  let up := upsertAccount account data.accounts
  let step1 : AccountsData × SecretStore × List VaultEvent :=
    match up.1 with
    | some existingId =>
      (⟨up.2, some existingId⟩, storeSet store existingId api_key,
       [.secretWrite existingId api_key])
    | none =>
      (⟨data.accounts ++ [account], some account.id⟩, storeSet store account.id api_key,
       [.secretWrite account.id api_key])
  let data1 := step1.1
  let store1 := step1.2.1
  let evs1 := step1.2.2 ++ [VaultEvent.durableWrite data1]
  match data1.active_account_id with
  | none =>
    { ret := .error (.Internal ("active_account_id should be set")),
      data := data1, store := store1, view := view, events := evs1 }
  | some activeId =>
    match data1.accounts.find? (fun a => a.id == activeId) with
    | none =>
      { ret := .error (.Internal ("active account not found in list")),
        data := data1, store := store1, view := view, events := evs1 }
    | some activeAccount =>
      { ret := .ok data1, data := data1, store := store1,
        view := ⟨some activeAccount.server_url, some api_key⟩,
        events := evs1 ++ [.viewServerUrlWrite (some activeAccount.server_url),
                           .viewApiKeyWrite (some api_key)] }

/-- `delete_account` from `auth.rs`: remove by id, delete the secret,
promote the first remaining account when the active one was deleted
(publishing its secret when retrievable) or clear the view when none
remain, and only then persist the new `AccountsData`. -/
def delete_account (account_id : String)
    (data : AccountsData) (store : SecretStore) (view : AppView) :
    VaultResult AccountsData :=
  let accounts1 := data.accounts.filter (fun a => a.id != account_id)
  let store1 := storeErase store account_id
  let evs1 := [VaultEvent.secretDelete account_id]
  if data.active_account_id == some account_id then
    let newActive := accounts1.head?.map Account.id
    let data1 : AccountsData := ⟨accounts1, newActive⟩
    match newActive with
    | some newId =>
      match accounts1.find? (fun a => a.id == newId) with
      | some account =>
        match store1 account.id with
        | some apiKey =>
          { ret := .ok data1, data := data1, store := store1,
            view := ⟨some account.server_url, some apiKey⟩,
            events := evs1 ++ [.viewServerUrlWrite (some account.server_url),
                               .viewApiKeyWrite (some apiKey), .durableWrite data1] }
        | none =>
          { ret := .ok data1, data := data1, store := store1, view := view,
            events := evs1 ++ [.durableWrite data1] }
      | none =>
        { ret := .ok data1, data := data1, store := store1, view := view,
          events := evs1 ++ [.durableWrite data1] }
    | none =>
      { ret := .ok data1, data := data1, store := store1, view := ⟨none, none⟩,
        events := evs1 ++ [.viewServerUrlWrite none, .viewApiKeyWrite none,
                           .durableWrite data1] }
  else
    let data1 : AccountsData := ⟨accounts1, data.active_account_id⟩
    { ret := .ok data1, data := data1, store := store1, view := view,
      events := evs1 ++ [.durableWrite data1] }

/-- The `iter_mut().find()` update of `set_active_account`: stamp
`last_used_at` on the first account with the given id. -/
def stampLastUsed (now account_id : String) : List Account → List Account
  | [] => []
  | a :: t =>
    if a.id == account_id then { a with last_used_at := now } :: t
    else a :: stampLastUsed now account_id t

/-- `set_active_account` from `auth.rs`: find the account (else
`AccountNotFound`), require its secret (else `KeyringError`), stamp
`last_used_at`, mark active, persist, and publish url and secret.  The
returned `Account` is the clone taken before the stamp. -/
def set_active_account (account_id now : String)
    (data : AccountsData) (store : SecretStore) (view : AppView) :
    VaultResult Account :=
  match data.accounts.find? (fun a => a.id == account_id) with
  | none =>
    { ret := .error (.AccountNotFound account_id),
      data := data, store := store, view := view, events := [] }
  | some account =>
    match store account_id with
    | none =>
      { ret := .error (.KeyringError ("API key not found")),
        data := data, store := store, view := view, events := [] }
    | some apiKey =>
      let data1 : AccountsData :=
        ⟨stampLastUsed now account_id data.accounts, some account_id⟩
      { ret := .ok account, data := data1, store := store,
        view := ⟨some account.server_url, some apiKey⟩,
        events := [.durableWrite data1, .viewServerUrlWrite (some account.server_url),
                   .viewApiKeyWrite (some apiKey)] }

/-! ## Event-ordering predicates -/

/-- Whether an event is a write to the shared credential view. -/
def isViewWrite : VaultEvent → Bool
  | .viewServerUrlWrite _ => true
  | .viewApiKeyWrite _ => true
  | _ => false

/-- Whether an event is a durable `save_accounts_data` write. -/
def isDurableWrite : VaultEvent → Bool
  | .durableWrite _ => true
  | _ => false

/-- Holds when every durable write in the trace precedes every shared-view
write: no view write is ever followed by a durable write. -/
def durableBeforeView : List VaultEvent → Bool
  | [] => true
  | e :: t =>
    (if isViewWrite e then t.all (fun x => !isDurableWrite x) else true) && durableBeforeView t

/-- Holds when every shared-view write in the trace precedes every durable
write: no durable write is ever followed by a view write. -/
def viewBeforeDurable : List VaultEvent → Bool
  | [] => true
  | e :: t =>
    (if isDurableWrite e then t.all (fun x => !isViewWrite x) else true) && viewBeforeDurable t

/-- The active-pointer invariant of `AccountsData`: the active id, when
set, names some account in the list. -/
def activeOk (d : AccountsData) : Bool :=
  match d.active_account_id with
  | none => true
  | some id => d.accounts.any (fun a => a.id == id)

/-! ## Claims -/

/-- C1: in `start_oidc_auth`, when the callback is received and its
`state` differs from the generated one, the flow returns
`AuthFailed "State mismatch"` and the token-exchange POST is never
reached (the reached-flag of the model is `false`). -/
theorem c1_state_mismatch_aborts (env : FlowEnv) (state code received : List Char)
    (cfg : OpenIdConfiguration)
    (hcfg : env.openidConfig = .ok cfg)
    (hbind : env.bindOutcome = .ok ())
    (hbrowser : env.browserOutcome = .ok ())
    (hcb : env.callback = some (.ok (code, received)))
    (hne : received ≠ state) :
    start_oidc_auth env state = (.error (.AuthFailed ("State mismatch")), false) := by
  simp [start_oidc_auth, hcfg, hbind, hbrowser, hcb, hne]

/-- Witness for C1 at a concrete environment: expected state `abc`,
callback state `xyz`. -/
theorem c1_witness :
    start_oidc_auth
      ⟨.ok ⟨"https://idp.example/authorize", "https://idp.example/token"⟩, .ok (), .ok (),
       some (.ok (("XYZ".toList), ("xyz".toList))), .error ("unused")⟩
      ("abc".toList) = (.error (.AuthFailed ("State mismatch")), false) :=
  c1_state_mismatch_aborts _ ("abc".toList) ("XYZ".toList) ("xyz".toList)
    ⟨"https://idp.example/authorize", "https://idp.example/token"⟩
    rfl rfl rfl rfl (by decide)

/-- C2 counterexample: deleting the active (and only) account writes the
shared view before the durable `AccountsData` write, so the durable write
does not precede the view writes. -/
theorem c2_counterexample :
    durableBeforeView
      (delete_account ("a1")
        ⟨[⟨"a1", "Alice", "https://s1", "alice@x", "k1", [], "t0", "t0"⟩], some ("a1")⟩
        (fun _ => none) ⟨none, none⟩).events = false := by decide

/-- C2 (amended): `load_accounts`, `save_account` and `set_active_account`
perform the durable `AccountsData` write before any write to the shared
view's fields, but `delete_account` performs its durable write last, after
any shared-view writes. -/
theorem c2_durable_view_order :
    (∀ data store view, durableBeforeView (load_accounts data store view).events = true) ∧
    (∀ account api_key data store view,
      durableBeforeView (save_account account api_key data store view).events = true) ∧
    (∀ account_id now data store view,
      durableBeforeView (set_active_account account_id now data store view).events = true) ∧
    (∀ account_id data store view,
      viewBeforeDurable (delete_account account_id data store view).events = true) := by
  refine ⟨?_, ?_, ?_, ?_⟩
  · intro data store view
    unfold load_accounts
    dsimp only
    repeat' split
    all_goals simp [durableBeforeView, isViewWrite, isDurableWrite]
  · intro account api_key data store view
    unfold save_account
    dsimp only
    repeat' split
    all_goals simp [durableBeforeView, isViewWrite, isDurableWrite]
  · intro account_id now data store view
    unfold set_active_account
    dsimp only
    repeat' split
    all_goals simp [durableBeforeView, isViewWrite, isDurableWrite]
  · intro account_id data store view
    unfold delete_account
    dsimp only
    repeat' split
    all_goals simp [viewBeforeDurable, isViewWrite, isDurableWrite]

/-- C6 counterexample: `load_accounts` with an active account whose secret
is missing leaves the previously published view in place instead of
clearing it. -/
theorem c6_counterexample :
    ((load_accounts
        ⟨[⟨"a1", "Alice", "https://s1", "alice@x", "k1", [], "t0", "t0"⟩], some ("a1")⟩
        (fun _ => none) ⟨some ("https://old"), some ("oldkey")⟩).view =
      ⟨some ("https://old"), some ("oldkey")⟩) ∧
    ((load_accounts
        ⟨[⟨"a1", "Alice", "https://s1", "alice@x", "k1", [], "t0", "t0"⟩], some ("a1")⟩
        (fun _ => none) ⟨some ("https://old"), some ("oldkey")⟩).view ≠ ⟨none, none⟩) := by
  refine ⟨by decide, by decide⟩

/-- C6 (amended): when `load_accounts` finds an active account but no
secret is retrievable for it, the operation publishes nothing, leaving the
previously published shared view untouched. -/
theorem c6_missing_secret_leaves_view (data : AccountsData) (store : SecretStore)
    (view : AppView) (aid : String) (account : Account)
    (h1 : data.active_account_id = some aid)
    (h2 : data.accounts.find? (fun a => a.id == aid) = some account)
    (h3 : store account.id = none) :
    (load_accounts data store view).view = view := by
  unfold load_accounts
  simp [h1, h2, h3]

/-- Witness for C6 (amended) at a concrete vault with one account and an
empty secret store. -/
theorem c6_witness :
    (load_accounts
      ⟨[⟨"a1", "Alice", "https://s1", "alice@x", "k1", [], "t0", "t0"⟩], some ("a1")⟩
      (fun _ => none) ⟨some ("https://old"), some ("oldkey")⟩).view =
      ⟨some ("https://old"), some ("oldkey")⟩ :=
  c6_missing_secret_leaves_view _ _ _ ("a1")
    ⟨"a1", "Alice", "https://s1", "alice@x", "k1", [], "t0", "t0"⟩
    rfl (by decide) rfl

/-- C7 counterexample: when the required discovery document succeeds but
the optional config document returns HTTP 200 with a body that is not
valid JSON, `discover_server` returns a `DiscoveryFailed` error, not
`Ok` with `oidc_config = None`. -/
theorem c7_counterexample :
    discover_server (.ok (200, .ok Json.null)) (.ok (200, .error ("expected value"))) =
      .error (.DiscoveryFailed ("Invalid config response: expected value")) := rfl

/-- C7 (amended): when the required discovery document succeeds, a
transport failure of the optional config fetch, a non-2xx config
response, or a parsed config lacking an authority or client id (or with
an empty authority) yields `Ok` with `oidc_config = None`; but a 2xx
config response whose body is not valid JSON yields a `DiscoveryFailed`
error. -/
theorem c7_optional_config (ds : Nat) (discovery : Json) (dfetch : FetchOutcome)
    (hd : dfetch = .ok (ds, .ok discovery)) (hds : isSuccessStatus ds = true) :
    (∀ e, discover_server dfetch (.error e) = .ok ⟨discovery, none⟩) ∧
    (∀ cs cbody, isSuccessStatus cs = false →
      discover_server dfetch (.ok (cs, cbody)) = .ok ⟨discovery, none⟩) ∧
    (∀ cs config, isSuccessStatus cs = true →
      (configLookup config ("oidcAuthority") "oidc_authority" = none ∨
       configLookup config ("oidcClientId") "oidc_client_id" = none ∨
       configLookup config ("oidcAuthority") "oidc_authority" = some ("")) →
      discover_server dfetch (.ok (cs, .ok config)) = .ok ⟨discovery, none⟩) ∧
    (∀ cs e, isSuccessStatus cs = true →
      discover_server dfetch (.ok (cs, .error e)) =
        .error (.DiscoveryFailed ("Invalid config response: " ++ e))) := by
  subst hd
  refine ⟨?_, ?_, ?_, ?_⟩
  · intro e
    simp [discover_server, hds]
  · intro cs cbody hcs
    simp [discover_server, hds, hcs]
  · intro cs config hcs hmiss
    rcases ha : configLookup config ("oidcAuthority") "oidc_authority" with _ | a <;>
      rcases hc : configLookup config ("oidcClientId") "oidc_client_id" with _ | c <;>
      rcases hmiss with h | h | h <;>
      simp_all [discover_server]
  · intro cs e hcs
    simp [discover_server, hds, hcs]

/-- Witness for C7 (amended): concrete discovery success with a config
transport failure gives `oidc_config = None`. -/
theorem c7_witness :
    discover_server (.ok (200, .ok Json.null)) (.error ("connection refused")) =
      .ok ⟨Json.null, none⟩ :=
  (c7_optional_config 200 Json.null _ rfl rfl).1 ("connection refused")

/-- When the upsert step reports an existing id, that id names an account
of the updated list. -/
theorem upsert_some_any (account : Account) (l : List Account) :
    ∀ eid l', upsertAccount account l = (some eid, l') →
      l'.any (fun a => a.id == eid) = true := by
  induction l with
  | nil =>
    intro eid l' h
    simp [upsertAccount] at h
  | cons a t ih =>
    intro eid l' h
    rcases hr : upsertAccount account t with ⟨ro, rl⟩
    simp only [upsertAccount, hr] at h
    by_cases hc : (a.server_url == account.server_url && a.user_email == account.user_email) = true
    · rw [if_pos hc] at h
      simp only [Prod.mk.injEq, Option.some.injEq] at h
      obtain ⟨rfl, rfl⟩ := h
      simp
    · rw [if_neg hc] at h
      simp only [Prod.mk.injEq] at h
      obtain ⟨rfl, rfl⟩ := h
      simp [List.any_cons, ih eid rl hr]

/-- Stamping `last_used_at` does not change which ids occur in the list. -/
theorem stampLastUsed_any (now i x : String) (l : List Account) :
    (stampLastUsed now i l).any (fun a => a.id == x) = l.any (fun a => a.id == x) := by
  induction l with
  | nil => rfl
  | cons a t ih =>
    by_cases hc : (a.id == i) = true
    · simp [stampLastUsed, hc]
    · simp [stampLastUsed, hc, ih]

/-- C3: each of the four vault operations, started from an `AccountsData`
in which the active pointer is unset or names some account in the list,
leaves an `AccountsData` satisfying the same predicate: the active
pointer is never left dangling. -/
theorem c3_active_not_dangling :
    (∀ data store view, activeOk data = true →
      activeOk (load_accounts data store view).data = true) ∧
    (∀ account api_key data store view, activeOk data = true →
      activeOk (save_account account api_key data store view).data = true) ∧
    (∀ account_id data store view, activeOk data = true →
      activeOk (delete_account account_id data store view).data = true) ∧
    (∀ account_id now data store view, activeOk data = true →
      activeOk (set_active_account account_id now data store view).data = true) := by
  refine ⟨?_, ?_, ?_, ?_⟩
  · intro data store view h
    unfold load_accounts
    dsimp only
    repeat' split
    all_goals simp_all [activeOk]
  · intro account api_key data store view h
    unfold save_account
    dsimp only
    rcases hup : upsertAccount account data.accounts with ⟨ro, rl⟩
    rcases ro with _ | eid
    · simp only [hup]
      repeat' split
      all_goals simp [activeOk]
    · simp only [hup]
      repeat' split
      all_goals simpa [activeOk] using upsert_some_any account data.accounts eid rl hup
  · intro account_id data store view h
    unfold delete_account
    dsimp only
    split
    · split
      · rename_i heq
        rcases hl : (List.filter (fun a => a.id != account_id) data.accounts) with _ | ⟨b, t⟩
        · rw [hl] at heq
          simp at heq
        · rw [hl] at heq
          simp only [List.head?_cons, Option.map_some] at heq
          obtain rfl := Option.some.inj heq
          repeat' split
          all_goals simp [activeOk, hl]
      · rename_i heq
        simp only [activeOk, heq]
    · rename_i hne
      rcases hact : data.active_account_id with _ | x
      · simp [activeOk]
      · simp only [activeOk, hact] at h ⊢
        rw [List.any_eq_true] at h
        obtain ⟨a, hmem, hpa⟩ := h
        have hxne : x ≠ account_id := by
          intro hx
          rw [hact, hx] at hne
          simp at hne
        rw [List.any_eq_true]
        refine ⟨a, ?_, hpa⟩
        rw [List.mem_filter]
        refine ⟨hmem, ?_⟩
        have : a.id = x := by simpa using hpa
        simp [this, hxne]
  · intro account_id now data store view h
    unfold set_active_account
    dsimp only
    split
    · exact h
    · rename_i account hfind
      split
      · exact h
      · have hp := List.find?_some hfind
        have hm := List.mem_of_find?_eq_some hfind
        simp only [activeOk]
        rw [stampLastUsed_any, List.any_eq_true]
        exact ⟨account, hm, hp⟩

/-- Witness for C3 at a concrete two-account vault, exercising all four
operations. -/
theorem c3_witness :
    (activeOk (load_accounts
        ⟨[⟨"a1", "A", "https://s1", "a@x", "k1", [], "t0", "t0"⟩], none⟩
        (fun _ => none) ⟨none, none⟩).data = true) ∧
    (activeOk (save_account ⟨"a2", "B", "https://s2", "b@x", "k2", [], "t1", "t1"⟩ ("key2")
        ⟨[⟨"a1", "A", "https://s1", "a@x", "k1", [], "t0", "t0"⟩], some ("a1")⟩
        (fun _ => none) ⟨none, none⟩).data = true) ∧
    (activeOk (delete_account ("a1")
        ⟨[⟨"a1", "A", "https://s1", "a@x", "k1", [], "t0", "t0"⟩,
          ⟨"a2", "B", "https://s2", "b@x", "k2", [], "t1", "t1"⟩], some ("a1")⟩
        (fun _ => none) ⟨none, none⟩).data = true) ∧
    (activeOk (set_active_account ("a1") "t9"
        ⟨[⟨"a1", "A", "https://s1", "a@x", "k1", [], "t0", "t0"⟩], some ("a1")⟩
        (fun k => if k = "a1" then some ("key1") else none) ⟨none, none⟩).data = true) :=
  ⟨c3_active_not_dangling.1 _ _ _ (by decide),
   c3_active_not_dangling.2.1 _ _ _ _ _ (by decide),
   c3_active_not_dangling.2.2.1 _ _ _ _ (by decide),
   c3_active_not_dangling.2.2.2 _ _ _ _ _ (by decide)⟩

/-- C4: deleting the active account of a vault with more than one account
(unique ids, a secret stored for every account) promotes the first
remaining account: afterwards `active_account_id` is its id and the
shared view holds its `server_url` and its stored secret.  Deleting the
last remaining (active) account clears both `active_account_id` and the
shared view. -/
theorem c4_delete_active_promotes :
    (∀ data store view aid,
      (data.accounts.map Account.id).Nodup →
      data.active_account_id = some aid →
      1 < data.accounts.length →
      (∀ a ∈ data.accounts, (store a.id).isSome = true) →
      ∃ b, (delete_account aid data store view).data.accounts.head? = some b ∧
        (delete_account aid data store view).data.active_account_id = some b.id ∧
        (delete_account aid data store view).view = ⟨some b.server_url, store b.id⟩) ∧
    (∀ a store view,
      (delete_account a.id ⟨[a], some a.id⟩ store view).data.active_account_id = none ∧
      (delete_account a.id ⟨[a], some a.id⟩ store view).view = ⟨none, none⟩ ∧
      (delete_account a.id ⟨[a], some a.id⟩ store view).data.accounts = []) := by
  constructor
  · intro data store view aid hnodup hact hlen hsec
    have hfilter : data.accounts.filter (fun a => a.id != aid) ≠ [] := by
      intro hnil
      rw [List.filter_eq_nil_iff] at hnil
      have hall : ∀ a ∈ data.accounts, a.id = aid := by
        intro a ha
        have := hnil a ha
        simpa using this
      rcases hacc : data.accounts with _ | ⟨x, t⟩
      · rw [hacc] at hlen
        simp at hlen
      · rcases t with _ | ⟨y, t2⟩
        · rw [hacc] at hlen
          simp at hlen
        · have hx := hall x (by rw [hacc]; exact List.mem_cons_self _ _)
          have hy := hall y (by rw [hacc]; exact List.mem_cons_of_mem _ (List.mem_cons_self _ _))
          rw [hacc] at hnodup
          simp only [List.map_cons, List.nodup_cons] at hnodup
          exact hnodup.1 (by rw [hx, hy]; exact List.mem_cons_self _ _)
    obtain ⟨b, t, hfl⟩ : ∃ b t, data.accounts.filter (fun a => a.id != aid) = b :: t := by
      rcases hfl : data.accounts.filter (fun a => a.id != aid) with _ | ⟨b, t⟩
      · exact absurd hfl hfilter
      · exact ⟨b, t, hfl⟩
    have hbmemf : b ∈ data.accounts.filter (fun a => a.id != aid) := by
      rw [hfl]
      exact List.mem_cons_self _ _
    have hbmem : b ∈ data.accounts := List.mem_of_mem_filter hbmemf
    have hbne : b.id ≠ aid := by
      have := List.of_mem_filter hbmemf
      simpa using this
    obtain ⟨key, hkey⟩ : ∃ key, store b.id = some key := by
      have hs := hsec b hbmem
      rcases h2 : store b.id with _ | k
      · rw [h2] at hs
        simp at hs
      · exact ⟨k, rfl⟩
    have hdel : delete_account aid data store view =
        { ret := .ok ⟨b :: t, some b.id⟩, data := ⟨b :: t, some b.id⟩,
          store := storeErase store aid,
          view := ⟨some b.server_url, some key⟩,
          events := [.secretDelete aid, .viewServerUrlWrite (some b.server_url),
                     .viewApiKeyWrite (some key), .durableWrite ⟨b :: t, some b.id⟩] } := by
      unfold delete_account
      dsimp only
      rw [hfl, hact]
      simp [storeErase, hbne, hkey]
    rw [hdel]
    exact ⟨b, rfl, rfl, by rw [hkey]⟩
  · intro a store view
    unfold delete_account
    dsimp only
    refine ⟨?_, ?_, ?_⟩ <;> simp

/-- Witness for C4 at a concrete two-account vault whose active first
account is deleted, promoting the second. -/
theorem c4_witness :
    (delete_account ("a1")
        ⟨[⟨"a1", "A", "https://s1", "a@x", "k1", [], "t0", "t0"⟩,
          ⟨"a2", "B", "https://s2", "b@x", "k2", [], "t1", "t1"⟩], some ("a1")⟩
        (fun k => if k = "a1" then some ("key1") else if k = "a2" then some ("key2") else none)
        ⟨some ("https://s1"), some ("key1")⟩).data.active_account_id = some ("a2") ∧
      (delete_account ("a1")
        ⟨[⟨"a1", "A", "https://s1", "a@x", "k1", [], "t0", "t0"⟩,
          ⟨"a2", "B", "https://s2", "b@x", "k2", [], "t1", "t1"⟩], some ("a1")⟩
        (fun k => if k = "a1" then some ("key1") else if k = "a2" then some ("key2") else none)
        ⟨some ("https://s1"), some ("key1")⟩).view = ⟨some ("https://s2"), some ("key2")⟩ := by
  obtain ⟨b, h1, h2, h3⟩ := c4_delete_active_promotes.1
    ⟨[⟨"a1", "A", "https://s1", "a@x", "k1", [], "t0", "t0"⟩,
      ⟨"a2", "B", "https://s2", "b@x", "k2", [], "t1", "t1"⟩], some ("a1")⟩
    (fun k => if k = "a1" then some ("key1") else if k = "a2" then some ("key2") else none)
    ⟨some ("https://s1"), some ("key1")⟩ ("a1") (by decide) rfl (by decide) (by decide)
  have hb : (⟨"a2", "B", "https://s2", "b@x", "k2", [], "t1", "t1"⟩ : Account) = b := by
    have hh : (delete_account ("a1")
        ⟨[⟨"a1", "A", "https://s1", "a@x", "k1", [], "t0", "t0"⟩,
          ⟨"a2", "B", "https://s2", "b@x", "k2", [], "t1", "t1"⟩], some ("a1")⟩
        (fun k => if k = "a1" then some ("key1") else if k = "a2" then some ("key2") else none)
        ⟨some ("https://s1"), some ("key1")⟩).data.accounts.head? =
        some (⟨"a2", "B", "https://s2", "b@x", "k2", [], "t1", "t1"⟩ : Account) := by decide
    rw [hh] at h1
    exact Option.some.inj h1
  rw [← hb] at h2 h3
  exact ⟨h2, h3⟩

/-- When no account matches the `(server_url, user_email)` pair, the
upsert step reports no existing id and leaves the list unchanged. -/
theorem upsert_of_no_match (account : Account) (l : List Account)
    (h : ∀ a ∈ l, ¬(a.server_url = account.server_url ∧ a.user_email = account.user_email)) :
    upsertAccount account l = (none, l) := by
  induction l with
  | nil => rfl
  | cons a t ih =>
    have hna := h a (List.mem_cons_self _ _)
    have hc : (a.server_url == account.server_url && a.user_email == account.user_email) = false := by
      rw [Bool.eq_false_iff]
      intro hc
      exact hna (by simpa using hc)
    have ht := ih (fun x hx => h x (List.mem_cons_of_mem _ hx))
    simp [upsertAccount, hc, ht]

/-- When the only matching account is the final one, the upsert step
reports its id and replaces it in place, keeping that id. -/
theorem upsert_append_match (account m : Account) (l : List Account)
    (h : ∀ a ∈ l, ¬(a.server_url = account.server_url ∧ a.user_email = account.user_email))
    (hm1 : m.server_url = account.server_url) (hm2 : m.user_email = account.user_email) :
    upsertAccount account (l ++ [m]) = (some m.id, l ++ [{ account with id := m.id }]) := by
  induction l with
  | nil =>
    simp only [List.nil_append, upsertAccount]
    rw [if_pos (by simp [hm1, hm2])]
  | cons a t ih =>
    have hna := h a (List.mem_cons_self _ _)
    have hc : (a.server_url == account.server_url && a.user_email == account.user_email) = false := by
      rw [Bool.eq_false_iff]
      intro hc
      exact hna (by simpa using hc)
    have ht := ih (fun x hx => h x (List.mem_cons_of_mem _ hx))
    simp [upsertAccount, hc, ht]

/-- The durable `AccountsData` produced by `save_account`, independent of
the publish step: the upserted list with the resolved id active, or the
appended list with the new account's id active. -/
theorem save_account_data (account : Account) (api_key : String)
    (data : AccountsData) (store : SecretStore) (view : AppView) :
    (save_account account api_key data store view).data =
      match upsertAccount account data.accounts with
      | (some existingId, l2) => ⟨l2, some existingId⟩
      | (none, _) => ⟨data.accounts ++ [account], some account.id⟩ := by
  unfold save_account
  dsimp only
  rcases hup : upsertAccount account data.accounts with ⟨ro, rl⟩
  rcases ro with _ | eid <;>
    · simp only [hup]
      repeat' split
      all_goals rfl

/-- C5: saving an account, then saving again with the same
`(server_url, user_email)` pair but different fields, leaves exactly one
account with that pair: the list is the original with one appended entry
carrying the second save's fields and the first save's id, and the second
save does not change the list's length. -/
theorem c5_upsert_idempotent (data : AccountsData) (store : SecretStore) (view : AppView)
    (acct1 acct2 : Account) (k1 k2 : String)
    (hurl : acct2.server_url = acct1.server_url)
    (hemail : acct2.user_email = acct1.user_email)
    (hfresh : ∀ a ∈ data.accounts,
      ¬(a.server_url = acct1.server_url ∧ a.user_email = acct1.user_email)) :
    (save_account acct2 k2 (save_account acct1 k1 data store view).data
        (save_account acct1 k1 data store view).store
        (save_account acct1 k1 data store view).view).data.accounts =
      data.accounts ++ [{ acct2 with id := acct1.id }] ∧
    (save_account acct2 k2 (save_account acct1 k1 data store view).data
        (save_account acct1 k1 data store view).store
        (save_account acct1 k1 data store view).view).data.accounts.countP
        (fun a => a.server_url == acct1.server_url && a.user_email == acct1.user_email) = 1 ∧
    (save_account acct2 k2 (save_account acct1 k1 data store view).data
        (save_account acct1 k1 data store view).store
        (save_account acct1 k1 data store view).view).data.accounts.length =
      (save_account acct1 k1 data store view).data.accounts.length := by
  have h1 : (save_account acct1 k1 data store view).data =
      ⟨data.accounts ++ [acct1], some acct1.id⟩ := by
    rw [save_account_data, upsert_of_no_match acct1 data.accounts hfresh]
  have hfresh2 : ∀ a ∈ data.accounts,
      ¬(a.server_url = acct2.server_url ∧ a.user_email = acct2.user_email) := by
    intro a ha
    rw [hurl, hemail]
    exact hfresh a ha
  have h2 : ∀ s2 v2, (save_account acct2 k2 ⟨data.accounts ++ [acct1], some acct1.id⟩ s2 v2).data =
      ⟨data.accounts ++ [{ acct2 with id := acct1.id }], some acct1.id⟩ := by
    intro s2 v2
    rw [save_account_data]
    have := upsert_append_match acct2 acct1 data.accounts hfresh2 hurl.symm hemail.symm
    simp only [this]
  rw [h1, h2]
  refine ⟨rfl, ?_, by simp⟩
  rw [List.countP_append]
  have hz : data.accounts.countP
      (fun a => a.server_url == acct1.server_url && a.user_email == acct1.user_email) = 0 := by
    rw [List.countP_eq_zero]
    intro a ha
    have := hfresh a ha
    simpa using this
  rw [hz]
  simp [List.countP_cons, hurl, hemail]

/-- Witness for C5: two saves of the same `(server_url, user_email)`
pair with different display names, starting from an empty vault. -/
theorem c5_witness :
    (save_account ⟨"id2", "New Name", "https://s1", "a@x", "k2", [], "t1", "t1"⟩ ("key2")
        (save_account ⟨"id1", "Old Name", "https://s1", "a@x", "k1", [], "t0", "t0"⟩ ("key1")
          ⟨[], none⟩ (fun _ => none) ⟨none, none⟩).data
        (save_account ⟨"id1", "Old Name", "https://s1", "a@x", "k1", [], "t0", "t0"⟩ ("key1")
          ⟨[], none⟩ (fun _ => none) ⟨none, none⟩).store
        (save_account ⟨"id1", "Old Name", "https://s1", "a@x", "k1", [], "t0", "t0"⟩ ("key1")
          ⟨[], none⟩ (fun _ => none) ⟨none, none⟩).view).data.accounts =
      [⟨"id1", "New Name", "https://s1", "a@x", "k2", [], "t1", "t1"⟩] :=
  (c5_upsert_idempotent ⟨[], none⟩ (fun _ => none) ⟨none, none⟩
    ⟨"id1", "Old Name", "https://s1", "a@x", "k1", [], "t0", "t0"⟩
    ⟨"id2", "New Name", "https://s1", "a@x", "k2", [], "t1", "t1"⟩
    ("key1") ("key2") rfl rfl (by simp)).1

/-- C8: for every parsed callback request, `wait_for_callback` returns
`(code, state)` exactly when a `code` parameter is present (replying
HTTP 200 with the success page), returns an error carrying the provider's
`error` value when `code` is absent and `error` present, and the generic
no-code error when neither is present (both replying HTTP 400 with the
failure page). -/
theorem c8_callback_outcomes (request : List Char) :
    (∀ c, parse_query_params (requestQuery request) ("code".toList) = some c →
      wait_for_callback request =
        (("HTTP/1.1 200 OK", successBody),
         .ok (c, (parse_query_params (requestQuery request) ("state".toList)).getD []))) ∧
    (parse_query_params (requestQuery request) ("code".toList) = none →
      ∀ e, parse_query_params (requestQuery request) ("error".toList) = some e →
      wait_for_callback request =
        (("HTTP/1.1 400 Bad Request", failureBody),
         .error (("OIDC error: ".toList) ++ e))) ∧
    (parse_query_params (requestQuery request) ("code".toList) = none →
      parse_query_params (requestQuery request) ("error".toList) = none →
      wait_for_callback request =
        (("HTTP/1.1 400 Bad Request", failureBody),
         .error ("No authorization code received".toList))) := by
  refine ⟨?_, ?_, ?_⟩
  · intro c hc
    simp only [wait_for_callback]
    rw [hc]
    simp
  · intro hc e he
    simp only [wait_for_callback]
    rw [hc, he]
    simp
  · intro hc he
    simp only [wait_for_callback]
    rw [hc, he]
    simp

/-- Witness for C8 at a concrete callback request carrying `code` and
`state`. -/
theorem c8_witness :
    wait_for_callback
        ("GET /auth/callback?code=XYZ&state=abc HTTP/1.1\r\nHost: x\r\n\r\n".toList) =
      (("HTTP/1.1 200 OK", successBody), .ok (("XYZ".toList), ("abc".toList))) :=
  (c8_callback_outcomes _).1 ("XYZ".toList) (by decide)

/-- The map built by folding `mapInsert` looks a key up as the last
matching pair, falling back to the initial map. -/
theorem foldl_mapInsert (l : List (List Char × List Char)) :
    ∀ (m : List Char → Option (List Char)) (k : List Char),
      (l.foldl mapInsert m) k =
        match lastLookup l k with
        | some v => some v
        | none => m k := by
  induction l using List.reverseRecOn with
  | nil =>
    intro m k
    simp [lastLookup]
  | append_singleton t p ih =>
    intro m k
    rw [List.foldl_append]
    simp only [List.foldl_cons, List.foldl_nil]
    by_cases hk : k = p.1
    · have hl : lastLookup (t ++ [p]) k = some p.2 := by
        unfold lastLookup
        rw [List.filter_append]
        have : List.filter (fun q => decide (q.1 = k)) [p] = [p] := by
          simp [hk]
        rw [this, List.getLast?_concat]
        rfl
      rw [hl]
      simp [mapInsert, hk]
    · have hl : lastLookup (t ++ [p]) k = lastLookup t k := by
        unfold lastLookup
        rw [List.filter_append]
        have : List.filter (fun q => decide (q.1 = k)) [p] = [] := by
          simp
          intro h
          exact absurd h.symm (by simpa using hk)
        rw [this, List.append_nil]
      rw [hl, mapInsert]
      simp only [if_neg hk]
      exact ih m k

/-- C10: `parse_query_params` maps every name to the value of its last
occurrence in the query string (so a name occurring twice resolves to the
second value, and the `state` checked by the flow is the last one sent),
and a pair without `=` maps its decoded name to the empty string. -/
theorem c10_last_occurrence_wins :
    (∀ query name, parse_query_params query name = lastLookup (queryPairs query) name) ∧
    (∀ pair : List Char, '=' ∉ pair →
      parsePair pair = (urlencoding_decode pair, [])) := by
  constructor
  · intro query name
    rw [parse_query_params, foldl_mapInsert]
    rcases lastLookup (queryPairs query) name with _ | v <;> rfl
  · intro pair h
    have hall : ∀ c ∈ pair, c ≠ '=' := fun c hc he => h (he ▸ hc)
    have hnone : splitnTwoRest '=' pair = none := by
      unfold splitnTwoRest
      have hd : pair.dropWhile (fun c => c ≠ '=') = [] := by
        rw [List.dropWhile_eq_nil_iff]
        intro c hc
        simpa using hall c hc
      rw [hd]
    have htake : pair.takeWhile (fun c => c ≠ '=') = pair := by
      rw [List.takeWhile_eq_self_iff]
      intro c hc
      simpa using hall c hc
    unfold parsePair
    rw [hnone, htake]
    rfl

/-- Witness for C10: a callback query carrying two `state` parameters
resolves to the second, and a pair without `=` maps to the empty value. -/
theorem c10_witness :
    parse_query_params ("state=abc&state=xyz".toList) ("state".toList) =
        lastLookup (queryPairs ("state=abc&state=xyz".toList)) ("state".toList) ∧
      parsePair ("foo".toList) = (urlencoding_decode ("foo".toList), []) :=
  ⟨c10_last_occurrence_wins.1 ("state=abc&state=xyz".toList) ("state".toList),
   c10_last_occurrence_wins.2 ("foo".toList) (by decide)⟩

/-- ASCII code points below 128 are valid `Char` values and survive the
`Char.ofNat` / `Char.toNat` round trip. -/
theorem toNat_ofNat_lt128 : ∀ b < 128, (Char.ofNat b).toNat = b := by decide

/-- The unreserved bytes are all ASCII. -/
theorem unreserved_lt128 (b : Nat) (hu : isUnreservedByte b = true) : b < 128 := by
  simp [isUnreservedByte] at hu
  omega

/-- ASCII characters UTF-8-encode to their single code point. -/
theorem utf8Char_ascii (c : Char) (h : c.toNat < 128) : utf8Char c = [c.toNat] := by
  unfold utf8Char
  rw [if_pos h]

/-- ASCII strings UTF-8-encode to the list of their code points. -/
theorem utf8Bytes_ascii (s : List Char) (h : ∀ c ∈ s, c.toNat < 128) :
    utf8Bytes s = s.map Char.toNat := by
  induction s with
  | nil => rfl
  | cons c t ih =>
    have iht := ih (fun x hx => h x (List.mem_cons_of_mem _ hx))
    simp only [utf8Bytes, List.flatMap_cons, List.map_cons] at iht ⊢
    rw [utf8Char_ascii c (h c (List.mem_cons_self _ _)), iht]
    rfl

/-- The code points of an encoded byte's characters: the byte itself when
unreserved, otherwise `%` and the two uppercase hex digits. -/
theorem encByte_map_toNat (b : Nat) (hb : b < 256) :
    (encByte b).map Char.toNat =
      if isUnreservedByte b then [b]
      else [37, hexUpperDigit (b / 16), hexUpperDigit (b % 16)] := by
  have hhex : ∀ d < 16, (Char.ofNat (hexUpperDigit d)).toNat = hexUpperDigit d := by decide
  unfold encByte
  by_cases hu : isUnreservedByte b = true
  · rw [if_pos hu, if_pos hu]
    simp [toNat_ofNat_lt128 b (unreserved_lt128 b hu)]
  · rw [if_neg hu, if_neg hu]
    simp [hhex (b / 16) (by omega), hhex (b % 16) (by omega)]

/-- Every character emitted by `encByte` is ASCII. -/
theorem encByte_ascii (b : Nat) (hb : b < 256) : ∀ c ∈ encByte b, c.toNat < 128 := by
  have hhex : ∀ d < 16, (Char.ofNat (hexUpperDigit d)).toNat < 128 := by decide
  unfold encByte
  by_cases hu : isUnreservedByte b = true
  · rw [if_pos hu]
    intro c hc
    rw [List.mem_singleton] at hc
    subst hc
    rw [toNat_ofNat_lt128 b (unreserved_lt128 b hu)]
    exact unreserved_lt128 b hu
  · rw [if_neg hu]
    intro c hc
    rcases List.mem_cons.mp hc with rfl | hc2
    · decide
    · rcases List.mem_cons.mp hc2 with rfl | hc3
      · exact hhex (b / 16) (by omega)
      · rcases List.mem_cons.mp hc3 with rfl | hc4
        · exact hhex (b % 16) (by omega)
        · exact absurd hc4 (List.not_mem_nil _)

/-- A percent escape built from the uppercase hex digits of `b < 256`
decodes back to the single character with code point `b`. -/
theorem pctChunk_hexUpper (b : Nat) (hb : b < 256) :
    pctChunk (hexUpperDigit (b / 16)) (hexUpperDigit (b % 16)) = [Char.ofNat b] := by
  have hhex : ∀ d < 16, hexVal (Char.ofNat (hexUpperDigit d)) = some d := by decide
  have hplus : ∀ d < 16, ¬(Char.ofNat (hexUpperDigit d) = '+') := by decide
  unfold pctChunk fromStrRadix16u8
  rw [if_neg (hplus (b / 16) (by omega))]
  rw [hhex (b / 16) (by omega), hhex (b % 16) (by omega)]
  dsimp only
  rw [Nat.div_add_mod]

/-- Unfolding lemma: a byte that is neither `%` nor `+` decodes to the
character with its code point. -/
theorem decodeBytes_cons_plain (b : Nat) (t : List Nat)
    (h37 : (b == 37) = false) (h43 : (b == 43) = false) :
    decodeBytes (b :: t) = Char.ofNat b :: decodeBytes t := by
  conv_lhs => rw [decodeBytes.eq_def]
  simp [h37, h43]

/-- Unfolding lemma: a `%` followed by two bytes decodes as one escape
chunk followed by the rest. -/
theorem decodeBytes_pct (hi lo : Nat) (t : List Nat) :
    decodeBytes (37 :: hi :: lo :: t) = pctChunk hi lo ++ decodeBytes t := by
  conv_lhs => rw [decodeBytes.eq_def]
  simp

/-- Decoding the concatenated encodings of a byte list recovers each byte
as a character (for bytes below 256). -/
theorem decodeBytes_roundtrip (bs : List Nat) (h : ∀ b ∈ bs, b < 256) :
    decodeBytes (bs.flatMap (fun b => (encByte b).map Char.toNat)) = bs.map Char.ofNat := by
  induction bs with
  | nil => rfl
  | cons b t ih =>
    have hb := h b (List.mem_cons_self _ _)
    have iht := ih (fun x hx => h x (List.mem_cons_of_mem _ hx))
    rw [List.flatMap_cons, encByte_map_toNat b hb]
    by_cases hu : isUnreservedByte b = true
    · have hb37 : b ≠ 37 := by
        intro he
        rw [he] at hu
        exact absurd hu (by decide)
      have hb43 : b ≠ 43 := by
        intro he
        rw [he] at hu
        exact absurd hu (by decide)
      rw [if_pos hu, List.singleton_append,
        decodeBytes_cons_plain b _ (by simpa using hb37) (by simpa using hb43), iht,
        List.map_cons]
    · rw [if_neg hu, List.cons_append, List.cons_append, List.cons_append, List.nil_append,
        decodeBytes_pct, pctChunk_hexUpper b hb, iht, List.map_cons]
      rfl

/-- C9 counterexample: for the one-character UTF-8 string `U+00E9`
(`é`), decoding its encoding does not return the original string — the
decoder maps each `%XX` byte to its own (Latin-1) character instead of
UTF-8-decoding the byte sequence. -/
theorem c9_counterexample :
    urlencoding_decode (urlencoding_encode [Char.ofNat 233]) ≠ [Char.ofNat 233] := by decide

/-- C9 (amended): for every ASCII string (every code point below 128,
which includes all printable ASCII), `urlencoding_decode` inverts
`urlencoding_encode`; the round trip does not hold for non-ASCII UTF-8
input. -/
theorem c9_roundtrip_ascii (s : List Char) (h : ∀ c ∈ s, c.toNat < 128) :
    urlencoding_decode (urlencoding_encode s) = s := by
  unfold urlencoding_decode urlencoding_encode
  rw [utf8Bytes_ascii s h]
  have hb : ∀ b ∈ s.map Char.toNat, b < 256 := by
    intro b hbmem
    obtain ⟨c, hc, rfl⟩ := List.mem_map.mp hbmem
    exact lt_trans (h c hc) (by norm_num)
  have hasc : ∀ c ∈ (s.map Char.toNat).flatMap encByte, c.toNat < 128 := by
    intro c hc
    rw [List.mem_flatMap] at hc
    obtain ⟨b, hbm, hcm⟩ := hc
    exact encByte_ascii b (hb b hbm) c hcm
  rw [utf8Bytes_ascii _ hasc, List.map_flatMap, decodeBytes_roundtrip _ hb, List.map_map]
  have hcomp : Char.ofNat ∘ Char.toNat = id := by
    funext c
    exact Char.ofNat_toNat c
  rw [hcomp, List.map_id]

/-- Witness for C9 (amended) on a printable-ASCII string exercising
unreserved characters, space, plus, percent and other escapes. -/
theorem c9_witness :
    urlencoding_decode (urlencoding_encode ("AZaz09-_.~ +%&=?/x".toList)) =
      ("AZaz09-_.~ +%&=?/x".toList) :=
  c9_roundtrip_ascii _ (by decide)

end RelateSmtp
